import Mathlib

/-!
Shallow embedding of the two resource-management components of the
cpp_crash_course repository:

* `SimpleString` (src/ccc-4.cpp): a bounded owning character buffer with
  capacity-checked `append_line`, deep copy, and move semantics.  Buffers
  live in an explicit `Store` (a list of character arrays addressed by
  index) so that aliasing, deep-copy independence and the moved-from
  null state are faithfully represented.  Characters are bytes (`Nat`).

* `Heap` (src/ccc-7.cpp): a bucket allocator over ten 4096-byte buckets
  with a parallel `bucket_used` flag array; allocation is a linear
  first-fit scan, release a linear scan for the matching block.  A block
  handle (the C++ `buckets[i].data` pointer) is modelled by the bucket
  index `i`, which is in bijection with the block addresses.
-/

namespace Ccc

/-! ### The store of heap-allocated character arrays -/

/-- Explicit heap for `SimpleString` buffers: each cell is one
`new char[n]` array; an address is an index into `mem`. -/
structure Store where
  mem : List (List Nat)
deriving DecidableEq

/-- Read the array at address `a` (reading unallocated memory yields `[]`;
no theorem depends on that value). -/
def Store.read (s : Store) (a : Nat) : List Nat :=
  s.mem.getD a []

/-- `new char[_]` with contents `arr`: returns the extended store and the
fresh address. -/
def Store.alloc (s : Store) (arr : List Nat) : Store × Nat :=
  (⟨s.mem ++ [arr]⟩, s.mem.length)

/-- Overwrite the array at address `a`. -/
def Store.write (s : Store) (a : Nat) (arr : List Nat) : Store :=
  ⟨s.mem.set a arr⟩

/-- `delete[] p`: releases the pointed-to array; `delete[] nullptr` is a
no-op.  A released cell is emptied (it is never read again). -/
def Store.deleteArr (s : Store) (p : Option Nat) : Store :=
  match p with
  | none => s
  | some a => ⟨s.mem.set a []⟩

/-! ### C string primitives -/

/-- `strlen`: number of bytes before the first NUL. -/
def cstrlen (l : List Nat) : Nat :=
  (l.takeWhile (fun b => b != 0)).length

/-- The `n` bytes that `strncpy(dst, src, n)` writes: the content of the
C string `src` truncated to `n` bytes, zero-padded up to `n` bytes. -/
def strncpyBytes (src : List Nat) (n : Nat) : List Nat :=
  let content := (src.takeWhile (fun b => b != 0)).take n
  content ++ List.replicate (n - content.length) 0

/-- Write `bytes` into `arr` starting at offset `off`. -/
def writeBytes (arr : List Nat) (off : Nat) (bytes : List Nat) : List Nat :=
  arr.take off ++ bytes ++ arr.drop (off + bytes.length)

/-! ### SimpleString (src/ccc-4.cpp) -/

/-- The `SimpleString` object: a capacity, a (possibly null) buffer
pointer into the `Store`, and the used length. -/
structure SimpleString where
  max_size : Nat
  buffer : Option Nat
  length : Nat
deriving DecidableEq

/-- `SimpleString::SimpleString(size_t max_size)`: throws
`std::runtime_error` on zero capacity, otherwise allocates `max_size`
bytes and null-terminates at index 0.  Fresh memory is modelled as
zero-filled; only `buffer[0]` is written by the constructor and no
operation reads an unwritten byte. -/
def SimpleString.create (max_size : Nat) (s : Store) :
    Except String (SimpleString × Store) :=
  if max_size = 0 then
    .error "Max size must be at least 1."
  else
    let arr := (List.replicate max_size 0).set 0 0
    let (s', addr) := s.alloc arr
    .ok ({ max_size := max_size, buffer := some addr, length := 0 }, s')

/-- `SimpleString::append_line(const char* appendee)`: fails (returning
`false`, touching nothing) when `strlen(appendee) + length + 2 >
max_size`; otherwise `strncpy`s the text at `buffer + length`, writes a
newline, advances `length` past it and null-terminates.  Dereferencing a
null `buffer` is undefined behaviour in the source; the model reads
address 0 in that case and no theorem relies on it. -/
def SimpleString.append_line (ss : SimpleString) (appendee : List Nat)
    (s : Store) : Bool × SimpleString × Store :=
  let appendee_len := cstrlen appendee
  if appendee_len + ss.length + 2 > ss.max_size then
    (false, ss, s)
  else
    let a := ss.buffer.getD 0
    let arr := s.read a
    let arr1 := writeBytes arr ss.length
      (strncpyBytes appendee (ss.max_size - ss.length))
    let len1 := ss.length + appendee_len
    let arr2 := arr1.set len1 10
    let len2 := len1 + 1
    let arr3 := arr2.set len2 0
    (true, { ss with length := len2 }, s.write a arr3)

/-- `SimpleString::SimpleString(const SimpleString&)`: allocates a fresh
buffer of `other.max_size` bytes and `strcpy`s `other.buffer` into it
(content up to and including the first NUL). -/
def SimpleString.copyCtor (other : SimpleString) (s : Store) :
    SimpleString × Store :=
  let fresh := List.replicate other.max_size 0
  let src := s.read (other.buffer.getD 0)
  let copied := writeBytes fresh 0 ((src.takeWhile (fun b => b != 0)) ++ [0])
  let (s', addr) := s.alloc copied
  ({ max_size := other.max_size, buffer := some addr, length := other.length }, s')

/-- `SimpleString::SimpleString(SimpleString&&)`: steals the pointer and
fields, leaving the source with zero length, null buffer and zero
capacity.  Returns (destination, moved-from source). -/
def SimpleString.moveCtor (other : SimpleString) : SimpleString × SimpleString :=
  ({ max_size := other.max_size, buffer := other.buffer, length := other.length },
   { max_size := 0, buffer := none, length := 0 })

/-- `SimpleString::operator=(SimpleString&&)` for distinct objects:
deletes the destination's old buffer, steals the source's fields, and
nulls/zeroes the source.  Returns (destination, moved-from source,
store).  (The `this == &other` self-move early-out has no counterpart
for distinct objects, which are all the claims quantify over.) -/
def SimpleString.moveAssign (self other : SimpleString) (s : Store) :
    SimpleString × SimpleString × Store :=
  let s' := s.deleteArr self.buffer
  ({ max_size := other.max_size, buffer := other.buffer, length := other.length },
   { max_size := 0, buffer := none, length := 0 }, s')

/-- `SimpleString::~SimpleString()`: `delete[] buffer`. -/
def SimpleString.destroy (ss : SimpleString) (s : Store) : Store :=
  s.deleteArr ss.buffer

/-- Validity of a (non-moved-from) `SimpleString`: the buffer pointer is
non-null and points at an allocated array of exactly `max_size` bytes,
`length < max_size`, the first `length` bytes are non-NUL and the byte
at `length` is the NUL terminator. -/
def SimpleString.Wf (ss : SimpleString) (s : Store) : Bool :=
  match ss.buffer with
  | none => false
  | some a =>
      decide (a < s.mem.length) &&
      ((s.read a).length == ss.max_size) &&
      decide (ss.length < ss.max_size) &&
      ((s.read a).take ss.length).all (fun b => b != 0) &&
      ((s.read a).getD ss.length 1 == 0)

/-! ### Heap bucket allocator (src/ccc-7.cpp) -/

/-- `Bucket::data_size`: each bucket holds 4096 bytes. -/
def data_size : Nat := 4096

/-- `Heap::n_heap_buckets`: the heap owns ten buckets. -/
def n_heap_buckets : Nat := 10

/-- The allocator state: the `bucket_used` flag array.  The bucket byte
contents are never inspected by `allocate`/`free`, so only the flags are
modelled; the handle returned for bucket `i` is `i` itself (standing for
the address `buckets[i].data`, distinct for distinct `i`). -/
structure Heap where
  bucket_used : List Bool
deriving DecidableEq

/-- The global `Heap heap;` has static storage, so `bucket_used` starts
zero-initialised: all blocks free. -/
def Heap.init : Heap :=
  ⟨List.replicate n_heap_buckets false⟩

/-- The scan `for i: if (!bucket_used[i]) ...` of `Heap::allocate`:
index of the first `false` flag, if any. -/
def findFree : List Bool → Option Nat
  | [] => none
  | b :: rest => if b then (findFree rest).map (· + 1) else some 0

/-- `Heap::allocate(size_t bytes)`: throws `std::bad_alloc` when the
request exceeds one bucket, otherwise claims the first free bucket and
returns its handle; throws `std::bad_alloc` when no bucket is free. -/
def Heap.allocate (h : Heap) (bytes : Nat) : Except String (Nat × Heap) :=
  if bytes > data_size then .error "bad_alloc"
  else
    match findFree h.bucket_used with
    | some i => .ok (i, ⟨h.bucket_used.set i true⟩)
    | none => .error "bad_alloc"

/-- `Heap::free(void* p)`: scans the buckets for the one whose address
matches `p` and clears its flag; an unrecognized address matches no
bucket and the scan falls through with no effect.  With handles
identified with bucket indices, `p` matches a bucket exactly when
`p < n_heap_buckets`. -/
def Heap.free (h : Heap) (p : Nat) : Heap :=
  if p < n_heap_buckets then ⟨h.bucket_used.set p false⟩ else h

/-- The `Heap` flag array has exactly `n_heap_buckets` entries (a fixed
C array in the source). -/
def Heap.Wf (h : Heap) : Prop :=
  h.bucket_used.length = n_heap_buckets

instance (h : Heap) : Decidable h.Wf := by
  unfold Heap.Wf
  infer_instance

/-! ### Allocation/free traces, for the outstanding-allocations claims -/

/-- One client call against the allocator. -/
inductive HeapOp where
  | alloc (bytes : Nat)
  | free (p : Nat)
deriving DecidableEq

/-- Run one call, tracking the list of outstanding handles (handles
allocated and not yet freed).  A failed allocation changes nothing. -/
def heapStep : Heap × List Nat → HeapOp → Heap × List Nat
  | (h, out), .alloc bytes =>
      match h.allocate bytes with
      | .ok (i, h') => (h', i :: out)
      | .error _ => (h, out)
  | (h, out), .free p => (h.free p, out.erase p)

/-- Run a sequence of calls from the initial all-free allocator. -/
def heapRun (ops : List HeapOp) : Heap × List Nat :=
  ops.foldl heapStep (Heap.init, [])

/-- Sequentially allocate each size in `sizes`, returning the handles in
order and the final heap; `none` if any allocation fails. -/
def allocAll (h : Heap) : List Nat → Option (List Nat × Heap)
  | [] => some ([], h)
  | b :: rest =>
      match h.allocate b with
      | .ok (i, h') =>
          match allocAll h' rest with
          | some (is, h'') => some (i :: is, h'')
          | none => none
      | .error _ => none

/-! ### Helper lemmas: C strings -/

theorem takeWhile_ne_zero_of_no_zero (l : List Nat) (h : ∀ b ∈ l, b ≠ 0) :
    l.takeWhile (fun b => b != 0) = l := by
  rw [List.takeWhile_eq_self_iff]
  intro x hx
  simpa using h x hx

theorem cstrlen_of_no_zero (l : List Nat) (h : ∀ b ∈ l, b ≠ 0) :
    cstrlen l = l.length := by
  rw [cstrlen, takeWhile_ne_zero_of_no_zero l h]

theorem strncpyBytes_of_no_zero (t : List Nat) (n : Nat)
    (h : ∀ b ∈ t, b ≠ 0) (hn : t.length ≤ n) :
    strncpyBytes t n = t ++ List.replicate (n - t.length) 0 := by
  rw [strncpyBytes, takeWhile_ne_zero_of_no_zero t h]
  simp [List.take_of_length_le hn]

theorem takeWhile_eq_take (l : List Nat) (n : Nat)
    (hnz : ∀ b ∈ l.take n, b ≠ 0) (hn : l.getD n 1 = 0) :
    l.takeWhile (fun b => b != 0) = l.take n := by
  induction l generalizing n with
  | nil => simp [List.getD] at hn
  | cons x xs ih =>
      cases n with
      | zero =>
          have hx0 : x = 0 := by simpa [List.getD] using hn
          have hxb : (x != 0) = false := by simp [hx0]
          simp [List.takeWhile, hxb]
      | succ m =>
          have hx : x ≠ 0 := hnz x (by simp)
          have hxb : (x != 0) = true := by simpa using hx
          have hxs : ∀ b ∈ xs.take m, b ≠ 0 := by
            intro b hb
            exact hnz b (by simpa using Or.inr hb)
          have hxn : xs.getD m 1 = 0 := by
            simpa [List.getD] using hn
          simp [List.takeWhile, hxb, ih m hxs hxn]

/-! ### Helper lemmas: the store -/

theorem Store.mem_length_write (s : Store) (a : Nat) (arr : List Nat) :
    (s.write a arr).mem.length = s.mem.length := by
  simp [Store.write]

theorem Store.read_write_self (s : Store) (a : Nat) (arr : List Nat)
    (ha : a < s.mem.length) : (s.write a arr).read a = arr := by
  simp [Store.write, Store.read, List.getD_eq_getElem?_getD,
    List.getElem?_set_self ha]

theorem Store.read_write_ne (s : Store) (a a' : Nat) (arr : List Nat)
    (h : a' ≠ a) : (s.write a' arr).read a = s.read a := by
  simp [Store.write, Store.read, List.getD_eq_getElem?_getD,
    List.getElem?_set_ne h]

theorem Store.read_alloc_old (s : Store) (arr : List Nat) (a : Nat)
    (ha : a < s.mem.length) : (s.alloc arr).1.read a = s.read a := by
  simp [Store.alloc, Store.read, List.getD_eq_getElem?_getD,
    List.getElem?_append, ha]

theorem Store.read_alloc_new (s : Store) (arr : List Nat) :
    (s.alloc arr).1.read (s.alloc arr).2 = arr := by
  simp [Store.alloc, Store.read, List.getD_append_right _ _ _ _ (le_refl _)]

theorem Store.alloc_snd (s : Store) (arr : List Nat) :
    (s.alloc arr).2 = s.mem.length := rfl

theorem Store.mem_length_alloc (s : Store) (arr : List Nat) :
    (s.alloc arr).1.mem.length = s.mem.length + 1 := by
  simp [Store.alloc]

/-! ### Helper lemmas: SimpleString validity -/

theorem SimpleString.wf_iff (ss : SimpleString) (s : Store) :
    ss.Wf s = true ↔ ∃ a, ss.buffer = some a ∧ a < s.mem.length ∧
      (s.read a).length = ss.max_size ∧ ss.length < ss.max_size ∧
      (∀ b ∈ (s.read a).take ss.length, b ≠ 0) ∧
      (s.read a).getD ss.length 1 = 0 := by
  cases hb : ss.buffer with
  | none => simp [SimpleString.Wf, hb]
  | some a =>
      simp [SimpleString.Wf, hb, Bool.and_eq_true, decide_eq_true_eq,
        List.all_eq_true, and_assoc]

theorem set_append_right' (l1 l2 : List Nat) (i x : Nat) (h : l1.length ≤ i) :
    (l1 ++ l2).set i x = l1 ++ l2.set (i - l1.length) x := by
  rw [List.set_append, if_neg (by omega)]

/-- The buffer contents produced by the success branch of `append_line`:
old content up to `L`, then the text, a newline, the NUL terminator, and
the zero padding left behind by `strncpy`. -/
theorem append_line_buffer_eq (arr t : List Nat) (L C : Nat)
    (hlen : arr.length = C) (hfit : t.length + L + 2 ≤ C) :
    ((writeBytes arr L (t ++ List.replicate (C - L - t.length) 0)).set
        (L + t.length) 10).set (L + t.length + 1) 0 =
      arr.take L ++ t ++ 10 :: 0 :: List.replicate (C - L - t.length - 2) 0 := by
  have htake : (arr.take L).length = L := by
    simp [List.length_take]; omega
  obtain ⟨m, hm⟩ : ∃ m, C - L - t.length = m + 2 :=
    ⟨C - L - t.length - 2, by omega⟩
  have hrep : List.replicate (C - L - t.length) 0 =
      (0 : Nat) :: 0 :: List.replicate m 0 := by
    rw [hm, List.replicate_succ, List.replicate_succ]
  have hdrop : arr.drop (L + (t ++ List.replicate (C - L - t.length) 0).length)
      = [] := by
    apply List.drop_eq_nil_of_le
    simp [List.length_append, List.length_replicate]
    omega
  rw [writeBytes, hdrop, List.append_nil, List.append_assoc]
  rw [set_append_right' _ _ _ _ (by omega)]
  have hi1 : L + t.length - (arr.take L).length = t.length := by
    rw [htake]; omega
  rw [hi1, set_append_right' _ _ _ _ (le_refl _), Nat.sub_self, hrep,
    List.set_cons_zero]
  rw [set_append_right' _ _ _ _ (by rw [htake]; omega)]
  have hi2 : L + t.length + 1 - (arr.take L).length = t.length + 1 := by
    rw [htake]; omega
  rw [hi2, set_append_right' _ _ _ _ (by omega)]
  have hi3 : t.length + 1 - t.length = 1 := by omega
  rw [hi3, List.set_cons_succ, List.set_cons_zero]
  rw [hm]
  simp [List.append_assoc]

/-- Success branch of `append_line`, as an equation: when the text (all
non-NUL, being a C string) fits, the call returns `true`, the length
grows past the appended newline, and the buffer is rewritten to the old
content followed by the text, a newline and a NUL. -/
theorem SimpleString.append_line_ok (ss : SimpleString) (a : Nat) (t : List Nat)
    (s : Store) (hb : ss.buffer = some a)
    (hlen : (s.read a).length = ss.max_size)
    (ht : ∀ b ∈ t, b ≠ 0)
    (hfit : t.length + ss.length + 2 ≤ ss.max_size) :
    ss.append_line t s =
      (true, { ss with length := ss.length + t.length + 1 },
       s.write a ((s.read a).take ss.length ++ t ++ 10 :: 0 ::
         List.replicate (ss.max_size - ss.length - t.length - 2) 0)) := by
  have hcl : cstrlen t = t.length := cstrlen_of_no_zero t ht
  rw [SimpleString.append_line]
  simp only [hcl, hb, Option.getD_some]
  rw [if_neg (by omega)]
  rw [strncpyBytes_of_no_zero t _ ht (by omega)]
  have := append_line_buffer_eq (s.read a) t ss.length ss.max_size hlen hfit
  rw [this]

/-- Failure branch of `append_line`: when the text does not fit, the
call returns `false` and neither the object nor the store changes. -/
theorem SimpleString.append_line_fail (ss : SimpleString) (t : List Nat)
    (s : Store) (ht : ∀ b ∈ t, b ≠ 0)
    (hfit : ss.max_size < t.length + ss.length + 2) :
    ss.append_line t s = (false, ss, s) := by
  have hcl : cstrlen t = t.length := cstrlen_of_no_zero t ht
  rw [SimpleString.append_line]
  simp only [hcl]
  rw [if_pos (by omega)]

theorem append_buffer_length (arr t : List Nat) (L C : Nat)
    (hlen : arr.length = C) (hfit : t.length + L + 2 ≤ C) :
    (arr.take L ++ t ++ 10 :: 0 ::
      List.replicate (C - L - t.length - 2) 0).length = C := by
  simp [List.length_append, List.length_take, List.length_replicate]
  omega

theorem append_buffer_take (arr t : List Nat) (L C : Nat)
    (hlen : arr.length = C) (hfit : t.length + L + 2 ≤ C) :
    (arr.take L ++ t ++ 10 :: 0 ::
        List.replicate (C - L - t.length - 2) 0).take (L + t.length + 1) =
      arr.take L ++ t ++ [10] := by
  have hA : (arr.take L).length = L := by simp [List.length_take]; omega
  simp only [List.append_assoc]
  rw [show L + t.length + 1 = (arr.take L).length + (t.length + 1) from by
    rw [hA]; omega]
  rw [List.take_append, List.take_append]
  simp [List.append_assoc]

theorem append_buffer_getD (arr t : List Nat) (L C : Nat)
    (hlen : arr.length = C) (hfit : t.length + L + 2 ≤ C) :
    (arr.take L ++ t ++ 10 :: 0 ::
        List.replicate (C - L - t.length - 2) 0).getD (L + t.length + 1) 1
      = 0 := by
  have hA : (arr.take L).length = L := by simp [List.length_take]; omega
  simp only [List.append_assoc]
  rw [List.getD_append_right _ _ _ _ (by rw [hA]; omega), hA]
  rw [show L + t.length + 1 - L = t.length + 1 from by omega]
  rw [List.getD_append_right _ _ _ _ (by omega)]
  rw [show t.length + 1 - t.length = 1 from by omega]
  rfl

/-- **C1**: `append_line(t)` on a valid `SimpleString` with capacity `C`
and length `L` succeeds if and only if `L + len(t) + 2 ≤ C`; on success
it appends `t` followed by a newline, the length becomes `L + len(t) + 1`
and the buffer is NUL-terminated at the new length; on failure it returns
`false` and leaves the object and the store untouched. -/
theorem SimpleString.append_line_spec (ss : SimpleString) (a : Nat)
    (t : List Nat) (s : Store) (hwf : ss.Wf s = true)
    (hb : ss.buffer = some a) (ht : ∀ b ∈ t, b ≠ 0) :
    ((ss.append_line t s).1 = true ↔
      ss.length + t.length + 2 ≤ ss.max_size) ∧
    (ss.length + t.length + 2 ≤ ss.max_size →
      ss.append_line t s =
        (true, { ss with length := ss.length + t.length + 1 },
         s.write a ((s.read a).take ss.length ++ t ++ 10 :: 0 ::
           List.replicate (ss.max_size - ss.length - t.length - 2) 0)) ∧
      ((ss.append_line t s).2.2.read a).getD (ss.length + t.length + 1) 1
        = 0) ∧
    (ss.max_size < ss.length + t.length + 2 →
      ss.append_line t s = (false, ss, s)) := by
  rcases (SimpleString.wf_iff ss s).1 hwf with
    ⟨a', hb', ha', hlen, hLlt, hnz, hterm⟩
  rw [hb] at hb'
  have haa : a = a' := by injection hb'
  subst haa
  refine ⟨?_, ?_, ?_⟩
  · by_cases hC : ss.length + t.length + 2 ≤ ss.max_size
    · rw [SimpleString.append_line_ok ss a t s hb hlen ht (by omega)]
      simpa using hC
    · rw [SimpleString.append_line_fail ss t s ht (by omega)]
      simpa using hC
  · intro hC
    have hok := SimpleString.append_line_ok ss a t s hb hlen ht (by omega)
    refine ⟨hok, ?_⟩
    rw [hok]
    rw [Store.read_write_self s a _ ha']
    exact append_buffer_getD (s.read a) t ss.length ss.max_size hlen (by omega)
  · intro hC
    exact SimpleString.append_line_fail ss t s ht (by omega)

/-- Witness for `SimpleString.append_line_spec`: a capacity-5 string
holding nothing, appending the single byte `65` — the append succeeds
and produces the buffer `65, 10, 0, 0, 0`. -/
theorem SimpleString.append_line_spec_witness :
    (⟨5, some 0, 0⟩ : SimpleString).append_line [65] ⟨[[0, 0, 0, 0, 0]]⟩
        = (true, ⟨5, some 0, 2⟩,
          (⟨[[0, 0, 0, 0, 0]]⟩ : Store).write 0 [65, 10, 0, 0, 0]) ∧
    (((⟨5, some 0, 0⟩ : SimpleString).append_line [65]
        ⟨[[0, 0, 0, 0, 0]]⟩).2.2.read 0).getD 2 1 = 0 :=
  (SimpleString.append_line_spec ⟨5, some 0, 0⟩ 0 [65] ⟨[[0, 0, 0, 0, 0]]⟩
    (by decide) (by decide) (by decide)).2.1 (by decide)

theorem Store.read_deleteArr_ne (s : Store) (p : Option Nat) (a : Nat)
    (h : p ≠ some a) : (s.deleteArr p).read a = s.read a := by
  cases p with
  | none => rfl
  | some b =>
      have hba : b ≠ a := fun hba => h (by rw [hba])
      simp [Store.deleteArr, Store.read, List.getD_eq_getElem?_getD,
        List.getElem?_set_ne hba]

theorem Store.mem_length_deleteArr (s : Store) (p : Option Nat) :
    (s.deleteArr p).mem.length = s.mem.length := by
  cases p <;> simp [Store.deleteArr]

/-- **C2**: constructing a `SimpleString` with capacity 0 fails with the
invalid-argument error and produces no instance; with any capacity
`C > 0` it yields length 0, capacity `C`, and a freshly allocated
NUL-terminated buffer of `C` bytes, satisfying the validity invariant. -/
theorem SimpleString.create_spec (C : Nat) (s : Store) :
    SimpleString.create 0 s = .error "Max size must be at least 1." ∧
    (0 < C → ∀ r s', SimpleString.create C s = .ok (r, s') →
      r = { max_size := C, buffer := some s.mem.length, length := 0 } ∧
      (s'.read s.mem.length).length = C ∧
      (s'.read s.mem.length).getD 0 1 = 0 ∧
      r.Wf s' = true) := by
  constructor
  · rfl
  · intro hC r s' h
    rw [SimpleString.create, if_neg (by omega)] at h
    simp only [Store.alloc, Except.ok.injEq, Prod.mk.injEq] at h
    obtain ⟨hr, hs⟩ := h
    subst hs
    have hread : (Store.read ⟨s.mem ++ [(List.replicate C (0 : Nat)).set 0 0]⟩
        s.mem.length) = (List.replicate C (0 : Nat)).set 0 0 := by
      simp [Store.read, List.getD_append_right _ _ _ _ (le_refl _)]
    have hlen : ((List.replicate C (0 : Nat)).set 0 0).length = C := by
      simp [List.length_set, List.length_replicate]
    have hterm : ((List.replicate C (0 : Nat)).set 0 0).getD 0 1 = 0 := by
      rw [List.getD_eq_getElem?_getD,
        List.getElem?_set_self (by simp [List.length_replicate]; omega)]
      rfl
    refine ⟨hr.symm, by rw [hread]; exact hlen, by rw [hread]; exact hterm, ?_⟩
    rw [← hr, SimpleString.wf_iff]
    refine ⟨s.mem.length, rfl, by simp, by rw [hread]; exact hlen, hC, ?_, ?_⟩
    · simp
    · rw [hread]; exact hterm

/-- Witness for `SimpleString.create_spec`: capacity 3 on the empty
store allocates the zeroed three-byte buffer at address 0. -/
theorem SimpleString.create_spec_witness :
    SimpleString.create 0 ⟨[]⟩ = .error "Max size must be at least 1." ∧
    ((⟨3, some 0, 0⟩ : SimpleString) = ⟨3, some 0, 0⟩ ∧
      ((⟨[[0, 0, 0]]⟩ : Store).read 0).length = 3 ∧
      ((⟨[[0, 0, 0]]⟩ : Store).read 0).getD 0 1 = 0 ∧
      SimpleString.Wf ⟨3, some 0, 0⟩ ⟨[[0, 0, 0]]⟩ = true) :=
  ⟨(SimpleString.create_spec 3 ⟨[]⟩).1,
    (SimpleString.create_spec 3 ⟨[]⟩).2 (by decide) ⟨3, some 0, 0⟩
      ⟨[[0, 0, 0]]⟩ (by rfl)⟩

/-- **C5**: move construction and move assignment transfer the buffer
pointer (hence its contents), length and capacity to the destination
exactly, leave the source with a null buffer, zero length and zero
capacity, and destroying the moved-from source is a no-op on the
store. -/
theorem SimpleString.move_spec (ss self : SimpleString) (a : Nat) (s : Store)
    (hb : ss.buffer = some a) (hne : self.buffer ≠ ss.buffer) :
    (ss.moveCtor.1 =
        { max_size := ss.max_size, buffer := some a, length := ss.length } ∧
      ss.moveCtor.2 = { max_size := 0, buffer := none, length := 0 } ∧
      ss.moveCtor.2.destroy s = s) ∧
    ((self.moveAssign ss s).1 =
        { max_size := ss.max_size, buffer := some a, length := ss.length } ∧
      (self.moveAssign ss s).2.2.read a = s.read a ∧
      (self.moveAssign ss s).2.1 =
        { max_size := 0, buffer := none, length := 0 } ∧
      (self.moveAssign ss s).2.1.destroy (self.moveAssign ss s).2.2 =
        (self.moveAssign ss s).2.2) := by
  refine ⟨⟨?_, rfl, rfl⟩, ⟨?_, ?_, rfl, rfl⟩⟩
  · rw [SimpleString.moveCtor, hb]
  · rw [SimpleString.moveAssign, hb]
  · rw [SimpleString.moveAssign]
    exact Store.read_deleteArr_ne s self.buffer a (by rw [← hb]; exact hne)

/-- Witness for `SimpleString.move_spec`: two distinct strings over a
two-cell store. -/
theorem SimpleString.move_spec_witness :
    let ss : SimpleString := ⟨5, some 0, 0⟩
    let self : SimpleString := ⟨4, some 1, 0⟩
    let s : Store := ⟨[[0, 0, 0, 0, 0], [0, 0, 0, 0]]⟩
    (ss.moveCtor.1 =
        { max_size := ss.max_size, buffer := some 0, length := ss.length } ∧
      ss.moveCtor.2 = { max_size := 0, buffer := none, length := 0 } ∧
      ss.moveCtor.2.destroy s = s) ∧
    ((self.moveAssign ss s).1 =
        { max_size := ss.max_size, buffer := some 0, length := ss.length } ∧
      (self.moveAssign ss s).2.2.read 0 = s.read 0 ∧
      (self.moveAssign ss s).2.1 =
        { max_size := 0, buffer := none, length := 0 } ∧
      (self.moveAssign ss s).2.1.destroy (self.moveAssign ss s).2.2 =
        (self.moveAssign ss s).2.2) :=
  SimpleString.move_spec ⟨5, some 0, 0⟩ ⟨4, some 1, 0⟩ 0
    ⟨[[0, 0, 0, 0, 0], [0, 0, 0, 0]]⟩ (by decide) (by decide)

theorem getElem?_of_term (l : List Nat) (n : Nat) (hterm : l.getD n 1 = 0) :
    l[n]? = some 0 := by
  rw [List.getD_eq_getElem?_getD] at hterm
  cases h : l[n]? with
  | none => rw [h] at hterm; simp at hterm
  | some x => rw [h] at hterm; simp at hterm; rw [hterm]

/-- The copy constructor, as an equation: it allocates a fresh buffer at
the next free address and `strcpy`s the content (up to and including the
NUL terminator) into it, the rest of the fresh buffer remaining zero. -/
theorem SimpleString.copyCtor_ok (ss : SimpleString) (a : Nat) (s : Store)
    (hb : ss.buffer = some a)
    (hlen : (s.read a).length = ss.max_size) (hLlt : ss.length < ss.max_size)
    (hnz : ∀ b ∈ (s.read a).take ss.length, b ≠ 0)
    (hterm : (s.read a).getD ss.length 1 = 0) :
    ss.copyCtor s =
      ({ max_size := ss.max_size, buffer := some s.mem.length,
         length := ss.length },
       (s.alloc ((s.read a).take ss.length ++ 0 ::
          List.replicate (ss.max_size - ss.length - 1) 0)).1) := by
  have htake : ((s.read a).take ss.length).length = ss.length := by
    simp [List.length_take]; omega
  rw [SimpleString.copyCtor]
  simp only [hb, Option.getD_some]
  rw [takeWhile_eq_take _ _ hnz hterm, writeBytes]
  have hblen : ((s.read a).take ss.length ++ [(0 : Nat)]).length
      = ss.length + 1 := by simp [htake]
  rw [List.take_zero, List.nil_append, Nat.zero_add, hblen,
    List.drop_replicate]
  rw [show ss.max_size - (ss.length + 1) = ss.max_size - ss.length - 1 from by
    omega]
  simp [Store.alloc, List.append_assoc]

/-- Which store `append_line` may leave behind: the input store (failure)
or a single write through the string's own buffer pointer (success). -/
theorem SimpleString.append_line_store_cases (ss : SimpleString)
    (t : List Nat) (s : Store) :
    (ss.append_line t s).2.2 = s ∨
    ∃ arr, (ss.append_line t s).2.2 = s.write (ss.buffer.getD 0) arr := by
  rw [SimpleString.append_line]
  split
  · left; rfl
  · right; exact ⟨_, rfl⟩

/-- **C6**: copying a valid `SimpleString` yields an instance with the
same capacity, same length, a fresh buffer distinct from the original's,
and identical content (through the NUL terminator); the copy leaves the
original's buffer untouched, and so does any later `append_line` on the
copy — deep-copy independence. -/
theorem SimpleString.copy_independent (ss : SimpleString) (a : Nat)
    (t : List Nat) (s : Store) (hwf : ss.Wf s = true)
    (hb : ss.buffer = some a) :
    (ss.copyCtor s).1.max_size = ss.max_size ∧
    (ss.copyCtor s).1.length = ss.length ∧
    (ss.copyCtor s).1.buffer = some s.mem.length ∧
    s.mem.length ≠ a ∧
    ((ss.copyCtor s).2.read s.mem.length).take (ss.length + 1)
      = (s.read a).take (ss.length + 1) ∧
    (ss.copyCtor s).2.read a = s.read a ∧
    ((ss.copyCtor s).1.append_line t (ss.copyCtor s).2).2.2.read a
      = s.read a := by
  rcases (SimpleString.wf_iff ss s).1 hwf with
    ⟨a', hb', ha', hlen, hLlt, hnz, hterm⟩
  rw [hb] at hb'
  have haa : a = a' := by injection hb'
  subst haa
  have hok := SimpleString.copyCtor_ok ss a s hb hlen hLlt hnz hterm
  have htake : ((s.read a).take ss.length).length = ss.length := by
    simp [List.length_take]; omega
  have hfresh : s.mem.length ≠ a := by omega
  have hreadA : (ss.copyCtor s).2.read a = s.read a := by
    rw [hok]; exact Store.read_alloc_old s _ a ha'
  refine ⟨by rw [hok], by rw [hok], by rw [hok], hfresh, ?_, hreadA, ?_⟩
  · rw [hok]
    dsimp only
    have hnew : (s.alloc ((s.read a).take ss.length ++ 0 ::
        List.replicate (ss.max_size - ss.length - 1) 0)).1.read s.mem.length
        = (s.read a).take ss.length ++ 0 ::
          List.replicate (ss.max_size - ss.length - 1) 0 := by
      have h := Store.read_alloc_new s ((s.read a).take ss.length ++ 0 ::
        List.replicate (ss.max_size - ss.length - 1) 0)
      rwa [Store.alloc_snd] at h
    rw [hnew]
    have h1 : ((s.read a).take ss.length ++ 0 ::
        List.replicate (ss.max_size - ss.length - 1) 0).take (ss.length + 1)
        = (s.read a).take ss.length ++ [0] := by
      rw [show (s.read a).take ss.length ++ 0 ::
          List.replicate (ss.max_size - ss.length - 1) 0
          = ((s.read a).take ss.length ++ [0]) ++
            List.replicate (ss.max_size - ss.length - 1) 0 from by
        simp [List.append_assoc]]
      exact List.take_left' (by simp [htake])
    rw [h1, List.take_succ, getElem?_of_term _ _ hterm]
    rfl
  · rcases SimpleString.append_line_store_cases (ss.copyCtor s).1 t
        (ss.copyCtor s).2 with hcase | ⟨arr, hcase⟩
    · rw [hcase]; exact hreadA
    · rw [hcase]
      have hbuf : (ss.copyCtor s).1.buffer = some s.mem.length := by rw [hok]
      rw [hbuf]
      rw [Option.getD_some]
      rw [Store.read_write_ne _ _ _ _ hfresh]
      exact hreadA

/-- Witness for `SimpleString.copy_independent`: a capacity-3 string
holding one byte and its terminator. -/
theorem SimpleString.copy_independent_witness :
    let ss : SimpleString := ⟨3, some 0, 1⟩
    let s : Store := ⟨[[65, 0, 0]]⟩
    (ss.copyCtor s).1.max_size = ss.max_size ∧
    (ss.copyCtor s).1.length = ss.length ∧
    (ss.copyCtor s).1.buffer = some s.mem.length ∧
    s.mem.length ≠ 0 ∧
    ((ss.copyCtor s).2.read s.mem.length).take (ss.length + 1)
      = (s.read 0).take (ss.length + 1) ∧
    (ss.copyCtor s).2.read 0 = s.read 0 ∧
    ((ss.copyCtor s).1.append_line [66] (ss.copyCtor s).2).2.2.read 0
      = s.read 0 :=
  SimpleString.copy_independent ⟨3, some 0, 1⟩ 0 [66] ⟨[[65, 0, 0]]⟩
    (by decide) (by decide)

/-- `append_line` preserves validity, whether it succeeds or fails. -/
theorem SimpleString.append_line_wf (ss : SimpleString) (t : List Nat)
    (s : Store) (hwf : ss.Wf s = true) (ht : ∀ b ∈ t, b ≠ 0) :
    (ss.append_line t s).2.1.Wf (ss.append_line t s).2.2 = true := by
  rcases (SimpleString.wf_iff ss s).1 hwf with
    ⟨a, hb, ha, hlen, hLlt, hnz, hterm⟩
  by_cases hC : ss.length + t.length + 2 ≤ ss.max_size
  · rw [SimpleString.append_line_ok ss a t s hb hlen ht (by omega)]
    dsimp only
    rw [SimpleString.wf_iff]
    refine ⟨a, hb, ?_, ?_, by dsimp only; omega, ?_, ?_⟩
    · rw [Store.mem_length_write]; exact ha
    · rw [Store.read_write_self _ _ _ ha]
      exact append_buffer_length _ _ _ _ hlen (by omega)
    · rw [Store.read_write_self _ _ _ ha]
      dsimp only
      rw [append_buffer_take _ _ _ _ hlen (by omega)]
      intro b hbmem
      simp only [List.append_assoc, List.mem_append] at hbmem
      rcases hbmem with h | h | h
      · exact hnz b h
      · exact ht b h
      · simp at h; omega
    · rw [Store.read_write_self _ _ _ ha]
      dsimp only
      exact append_buffer_getD _ _ _ _ hlen (by omega)
  · rw [SimpleString.append_line_fail ss t s ht (by omega)]
    exact hwf

/-- **C9**: every `SimpleString` operation — construction with positive
capacity, successful or failed `append_line`, copy construction, and
move assignment into an instance whose buffer is not the source's —
yields a valid instance: non-null buffer, `length < max_size`, and the
buffer NUL-terminated at `length`. -/
theorem SimpleString.invariant_preservation (C : Nat) (ss self : SimpleString)
    (t : List Nat) (s : Store) (hC : 0 < C) (hwf : ss.Wf s = true)
    (ht : ∀ b ∈ t, b ≠ 0) (hne : self.buffer ≠ ss.buffer) :
    (∀ r s', SimpleString.create C s = .ok (r, s') → r.Wf s' = true) ∧
    (ss.append_line t s).2.1.Wf (ss.append_line t s).2.2 = true ∧
    (ss.copyCtor s).1.Wf (ss.copyCtor s).2 = true ∧
    (self.moveAssign ss s).1.Wf (self.moveAssign ss s).2.2 = true := by
  rcases (SimpleString.wf_iff ss s).1 hwf with
    ⟨a, hb, ha, hlen, hLlt, hnz, hterm⟩
  refine ⟨?_, SimpleString.append_line_wf ss t s hwf ht, ?_, ?_⟩
  · intro r s' h
    exact ((SimpleString.create_spec C s).2 hC r s' h).2.2.2
  · rw [SimpleString.copyCtor_ok ss a s hb hlen hLlt hnz hterm]
    dsimp only
    rw [SimpleString.wf_iff]
    have hnew : (s.alloc ((s.read a).take ss.length ++ 0 ::
        List.replicate (ss.max_size - ss.length - 1) 0)).1.read s.mem.length
        = (s.read a).take ss.length ++ 0 ::
          List.replicate (ss.max_size - ss.length - 1) 0 := by
      have h := Store.read_alloc_new s ((s.read a).take ss.length ++ 0 ::
        List.replicate (ss.max_size - ss.length - 1) 0)
      rwa [Store.alloc_snd] at h
    have htake : ((s.read a).take ss.length).length = ss.length := by
      simp [List.length_take]; omega
    refine ⟨s.mem.length, rfl, ?_, ?_, hLlt, ?_, ?_⟩
    · rw [Store.mem_length_alloc]; omega
    · rw [hnew]; simp [htake, List.length_replicate]; omega
    · rw [hnew]
      rw [List.take_left' htake]
      exact hnz
    · rw [hnew]
      rw [List.getD_append_right _ _ _ _ (by rw [htake]), htake,
        Nat.sub_self]
      rfl
  · rw [SimpleString.moveAssign]
    dsimp only
    rw [SimpleString.wf_iff]
    have hread : (s.deleteArr self.buffer).read a = s.read a :=
      Store.read_deleteArr_ne s self.buffer a (by rw [← hb]; exact hne)
    exact ⟨a, hb, by rw [Store.mem_length_deleteArr]; exact ha,
      by rw [hread]; exact hlen, hLlt, by rw [hread]; exact hnz,
      by rw [hread]; exact hterm⟩

/-- Witness for `SimpleString.invariant_preservation`: capacity 4,
a one-byte string, appending one byte, move-assigning over a second
object. -/
theorem SimpleString.invariant_preservation_witness :
    SimpleString.Wf ⟨4, some 2, 0⟩
        ⟨[[65, 0, 0, 0], [0, 0, 0], [0, 0, 0, 0]]⟩ = true ∧
    ((⟨4, some 0, 1⟩ : SimpleString).append_line [66]
        ⟨[[65, 0, 0, 0], [0, 0, 0]]⟩).2.1.Wf
      ((⟨4, some 0, 1⟩ : SimpleString).append_line [66]
        ⟨[[65, 0, 0, 0], [0, 0, 0]]⟩).2.2 = true ∧
    ((⟨4, some 0, 1⟩ : SimpleString).copyCtor
        ⟨[[65, 0, 0, 0], [0, 0, 0]]⟩).1.Wf
      ((⟨4, some 0, 1⟩ : SimpleString).copyCtor
        ⟨[[65, 0, 0, 0], [0, 0, 0]]⟩).2 = true ∧
    ((⟨3, some 1, 0⟩ : SimpleString).moveAssign ⟨4, some 0, 1⟩
        ⟨[[65, 0, 0, 0], [0, 0, 0]]⟩).1.Wf
      ((⟨3, some 1, 0⟩ : SimpleString).moveAssign ⟨4, some 0, 1⟩
        ⟨[[65, 0, 0, 0], [0, 0, 0]]⟩).2.2 = true := by
  have h := SimpleString.invariant_preservation 4 ⟨4, some 0, 1⟩
    ⟨3, some 1, 0⟩ [66] ⟨[[65, 0, 0, 0], [0, 0, 0]]⟩ (by decide) (by decide)
    (by decide) (by decide)
  exact ⟨h.1 ⟨4, some 2, 0⟩ ⟨[[65, 0, 0, 0], [0, 0, 0], [0, 0, 0, 0]]⟩ rfl,
    h.2.1, h.2.2.1, h.2.2.2⟩

/-! ### Helper lemmas: the bucket scan -/

theorem findFree_some (l : List Bool) (i : Nat) (h : findFree l = some i) :
    i < l.length ∧ l.getD i true = false ∧
      ∀ j, j < i → l.getD j false = true := by
  induction l generalizing i with
  | nil => simp [findFree] at h
  | cons b rest ih =>
      cases b with
      | false =>
          have h0 : i = 0 := by
            simp [findFree] at h
            omega
          subst h0
          exact ⟨by simp, rfl, fun j hj => absurd hj (by omega)⟩
      | true =>
          simp only [findFree] at h
          rw [if_pos trivial] at h
          rw [Option.map_eq_some'] at h
          obtain ⟨i', hi', rfl⟩ := h
          obtain ⟨h1, h2, h3⟩ := ih i' hi'
          refine ⟨by simp; omega, by simpa [List.getD] using h2, ?_⟩
          intro j hj
          cases j with
          | zero => rfl
          | succ j' => simpa [List.getD] using h3 j' (by omega)

theorem findFree_none (l : List Bool) (h : findFree l = none) :
    ∀ b ∈ l, b = true := by
  induction l with
  | nil => simp
  | cons b rest ih =>
      cases b with
      | false => simp [findFree] at h
      | true =>
          simp only [findFree] at h
          rw [if_pos trivial] at h
          rw [Option.map_eq_none'] at h
          intro x hx
          rcases List.mem_cons.1 hx with rfl | hx'
          · rfl
          · exact ih h x hx'

theorem findFree_some_of_mem (l : List Bool) (h : false ∈ l) :
    ∃ i, findFree l = some i := by
  cases hf : findFree l with
  | some i => exact ⟨i, rfl⟩
  | none => exact absurd (findFree_none l hf false h) (by simp)

theorem getElem?_false_of_getD (l : List Bool) (j : Nat)
    (h : l.getD j true = false) : l[j]? = some false := by
  rw [List.getD_eq_getElem?_getD] at h
  cases hv : l[j]? with
  | none => rw [hv] at h; simp at h
  | some x => rw [hv] at h; simp at h; subst h; rfl

theorem mem_false_of_getD (l : List Bool) (j : Nat)
    (h : l.getD j true = false) : false ∈ l :=
  List.getElem?_mem (getElem?_false_of_getD l j h)

theorem set_eq_self_of_getElem? (l : List Bool) (i : Nat) (x : Bool)
    (h : l[i]? = some x) : l.set i x = l := by
  apply List.ext_getElem?
  intro n
  by_cases hn : i = n
  · subst hn
    rw [List.getElem?_set_self (List.getElem?_eq_some.1 h).1, h]
  · rw [List.getElem?_set_ne hn]

/-- **C3**: `allocate(n)` succeeds (with some handle) exactly when
`n ≤ block_size` and at least one free block exists; a returned handle
designates a block that was free; any request larger than `block_size`
fails regardless of free-block availability, and in every other failing
situation the error is the same out-of-memory error. -/
theorem Heap.allocate_spec (h : Heap) (n : Nat) :
    ((∃ i h', h.allocate n = .ok (i, h')) ↔
      n ≤ data_size ∧ false ∈ h.bucket_used) ∧
    (∀ i h', h.allocate n = .ok (i, h') →
      h.bucket_used.getD i true = false) ∧
    (data_size < n → h.allocate n = .error "bad_alloc") ∧
    (¬(n ≤ data_size ∧ false ∈ h.bucket_used) →
      h.allocate n = .error "bad_alloc") := by
  have hok_dissect : ∀ i h', h.allocate n = .ok (i, h') →
      n ≤ data_size ∧ findFree h.bucket_used = some i := by
    intro i h' hok
    rw [Heap.allocate] at hok
    by_cases hn : n > data_size
    · rw [if_pos hn] at hok; exact absurd hok (by simp)
    · rw [if_neg hn] at hok
      cases hf : findFree h.bucket_used with
      | none => rw [hf] at hok; exact absurd hok (by simp)
      | some j =>
          rw [hf] at hok
          simp only [Except.ok.injEq, Prod.mk.injEq] at hok
          exact ⟨by omega, by rw [hok.1]⟩
  refine ⟨⟨?_, ?_⟩, ?_, ?_, ?_⟩
  · rintro ⟨i, h', hok⟩
    obtain ⟨hn, hf⟩ := hok_dissect i h' hok
    obtain ⟨-, hfv, -⟩ := findFree_some _ _ hf
    exact ⟨hn, mem_false_of_getD _ _ hfv⟩
  · rintro ⟨hn, hmem⟩
    obtain ⟨i, hf⟩ := findFree_some_of_mem _ hmem
    refine ⟨i, ⟨h.bucket_used.set i true⟩, ?_⟩
    rw [Heap.allocate, if_neg (by omega), hf]
  · intro i h' hok
    obtain ⟨-, hf⟩ := hok_dissect i h' hok
    exact (findFree_some _ _ hf).2.1
  · intro hn
    rw [Heap.allocate, if_pos (by omega)]
  · intro hcond
    rw [Heap.allocate]
    by_cases hn : n > data_size
    · rw [if_pos hn]
    · rw [if_neg hn]
      cases hf : findFree h.bucket_used with
      | none => rfl
      | some j =>
          obtain ⟨-, hfv, -⟩ := findFree_some _ _ hf
          exact absurd ⟨by omega, mem_false_of_getD _ _ hfv⟩ hcond

/-- Witness for `Heap.allocate_spec`: a two-bucket-used heap and a
fitting request. -/
theorem Heap.allocate_spec_witness :
    let h : Heap := ⟨[true, false, true, false, false, false, false, false,
      false, false]⟩
    ((∃ i h', h.allocate 100 = .ok (i, h')) ↔
      100 ≤ data_size ∧ false ∈ h.bucket_used) ∧
    (∀ i h', h.allocate 100 = .ok (i, h') →
      h.bucket_used.getD i true = false) ∧
    (data_size < 100 → h.allocate 100 = .error "bad_alloc") ∧
    (¬(100 ≤ data_size ∧ false ∈ h.bucket_used) →
      h.allocate 100 = .error "bad_alloc") :=
  Heap.allocate_spec ⟨[true, false, true, false, false, false, false, false,
    false, false]⟩ 100

/-- **C7**: `free(p)` on a handle matching an owned block clears exactly
that block's flag and no other; `free(p)` on a handle matching no owned
block leaves the allocator unchanged and raises no error. -/
theorem Heap.free_spec (h : Heap) (p : Nat) (hw : h.Wf) :
    (p < n_heap_buckets →
      (h.free p).bucket_used.getD p true = false ∧
      ∀ j, j ≠ p → (h.free p).bucket_used.getD j true
        = h.bucket_used.getD j true) ∧
    (n_heap_buckets ≤ p → h.free p = h) := by
  rw [Heap.Wf] at hw
  constructor
  · intro hp
    rw [Heap.free, if_pos hp]
    constructor
    · rw [List.getD_eq_getElem?_getD]
      rw [List.getElem?_set_self (by omega)]
      rfl
    · intro j hj
      rw [List.getD_eq_getElem?_getD, List.getD_eq_getElem?_getD]
      rw [List.getElem?_set_ne (fun hpj => hj hpj.symm)]
  · intro hp
    rw [Heap.free, if_neg (by omega)]

/-- Witness for `Heap.free_spec`: freeing handle 3 of the initial
heap clears flag 3 and touches no other flag. -/
theorem Heap.free_spec_witness :
    (Heap.init.free 3).bucket_used.getD 3 true = false ∧
    ∀ j, j ≠ 3 → (Heap.init.free 3).bucket_used.getD j true
      = Heap.init.bucket_used.getD j true :=
  (Heap.free_spec Heap.init 3 (by decide)).1 (by decide)

/-- **C8**: with at least one free block and a request of at most
`block_size` bytes, `allocate` returns the free block with the lowest
scan index (first fit) and marks exactly that block in use. -/
theorem Heap.allocate_first_fit (h : Heap) (n : Nat)
    (hn : n ≤ data_size) (hfree : false ∈ h.bucket_used) :
    ∃ i h', h.allocate n = .ok (i, h') ∧
      h.bucket_used.getD i true = false ∧
      (∀ j, j < i → h.bucket_used.getD j false = true) ∧
      h'.bucket_used = h.bucket_used.set i true ∧
      h'.bucket_used.getD i true = true ∧
      (∀ j, j ≠ i → h'.bucket_used.getD j true
        = h.bucket_used.getD j true) := by
  obtain ⟨i, hf⟩ := findFree_some_of_mem _ hfree
  obtain ⟨hil, hiv, hleast⟩ := findFree_some _ _ hf
  refine ⟨i, ⟨h.bucket_used.set i true⟩, ?_, hiv, hleast, rfl, ?_, ?_⟩
  · rw [Heap.allocate, if_neg (by omega), hf]
  · rw [List.getD_eq_getElem?_getD, List.getElem?_set_self hil]
    rfl
  · intro j hj
    rw [List.getD_eq_getElem?_getD, List.getD_eq_getElem?_getD]
    rw [List.getElem?_set_ne (fun hij => hj hij.symm)]

/-- Witness for `Heap.allocate_first_fit`: the first free block of a
partially used heap is index 1. -/
theorem Heap.allocate_first_fit_witness :
    let h : Heap := ⟨[true, false, false, false, false, false, false, false,
      false, false]⟩
    ∃ i h', h.allocate 4096 = .ok (i, h') ∧
      h.bucket_used.getD i true = false ∧
      (∀ j, j < i → h.bucket_used.getD j false = true) ∧
      h'.bucket_used = h.bucket_used.set i true ∧
      h'.bucket_used.getD i true = true ∧
      (∀ j, j ≠ i → h'.bucket_used.getD j true
        = h.bucket_used.getD j true) :=
  Heap.allocate_first_fit ⟨[true, false, false, false, false, false, false,
    false, false, false]⟩ 4096 (by decide) (by decide)

/-- **C10**: a successful `allocate` followed by `free` of the returned
handle restores the allocator to exactly its previous state. -/
theorem Heap.allocate_free_identity (h : Heap) (n i : Nat) (h' : Heap)
    (hw : h.Wf) (hok : h.allocate n = .ok (i, h')) :
    h'.free i = h := by
  rw [Heap.Wf] at hw
  rw [Heap.allocate] at hok
  by_cases hn : n > data_size
  · rw [if_pos hn] at hok; exact absurd hok (by simp)
  · rw [if_neg hn] at hok
    cases hf : findFree h.bucket_used with
    | none => rw [hf] at hok; exact absurd hok (by simp)
    | some j =>
        rw [hf] at hok
        simp only [Except.ok.injEq, Prod.mk.injEq] at hok
        obtain ⟨rfl, rfl⟩ := hok
        obtain ⟨hjl, hjv, -⟩ := findFree_some _ _ hf
        rw [Heap.free, if_pos (by omega)]
        show Heap.mk ((h.bucket_used.set j true).set j false) = h
        rw [List.set_set,
          set_eq_self_of_getElem? _ _ _ (getElem?_false_of_getD _ _ hjv)]

/-- Witness for `Heap.allocate_free_identity`: allocating on the initial
heap claims block 0; freeing it restores the initial heap. -/
theorem Heap.allocate_free_identity_witness :
    (Heap.mk ((List.replicate n_heap_buckets false).set 0 true)).free 0
      = Heap.init :=
  Heap.allocate_free_identity Heap.init 1 0
    ⟨(List.replicate n_heap_buckets false).set 0 true⟩
    (by decide) (by rfl)

/-! ### The outstanding-allocations invariant -/

/-- Invariant of a (heap, outstanding handles) pair reachable from the
initial state: the flag array keeps its fixed size, outstanding handles
are pairwise distinct bucket indices, and a bucket is flagged in use
exactly when its handle is outstanding. -/
def HeapInv (h : Heap) (out : List Nat) : Prop :=
  h.bucket_used.length = n_heap_buckets ∧
  out.Nodup ∧
  (∀ i ∈ out, i < n_heap_buckets) ∧
  (∀ i, i < n_heap_buckets → (h.bucket_used.getD i true = true ↔ i ∈ out))

theorem heapStep_inv (h : Heap) (out : List Nat) (op : HeapOp)
    (hinv : HeapInv h out) :
    HeapInv (heapStep (h, out) op).1 (heapStep (h, out) op).2 := by
  obtain ⟨hlen, hnd, hbound, hflag⟩ := hinv
  cases op with
  | alloc bytes =>
      cases hok : h.allocate bytes with
      | error e =>
          simp only [heapStep, hok]
          exact ⟨hlen, hnd, hbound, hflag⟩
      | ok v =>
          obtain ⟨i, h'⟩ := v
          simp only [heapStep, hok]
          rw [Heap.allocate] at hok
          by_cases hbn : bytes > data_size
          · rw [if_pos hbn] at hok; exact absurd hok (by simp)
          · rw [if_neg hbn] at hok
            cases hf : findFree h.bucket_used with
            | none => rw [hf] at hok; exact absurd hok (by simp)
            | some j =>
                rw [hf] at hok
                simp only [Except.ok.injEq, Prod.mk.injEq] at hok
                obtain ⟨rfl, rfl⟩ := hok
                obtain ⟨hjl, hjv, -⟩ := findFree_some _ _ hf
                have hjn : j < n_heap_buckets := by omega
                have hjout : j ∉ out := fun hmem => by
                  have := (hflag j hjn).2 hmem
                  rw [this] at hjv
                  exact absurd hjv (by simp)
                refine ⟨by simp [hlen], List.nodup_cons.2 ⟨hjout, hnd⟩, ?_, ?_⟩
                · intro i hi
                  rcases List.mem_cons.1 hi with rfl | hi'
                  · exact hjn
                  · exact hbound i hi'
                · intro i hi
                  by_cases hij : i = j
                  · subst hij
                    rw [List.getD_eq_getElem?_getD,
                      List.getElem?_set_self (by omega)]
                    simp
                  · rw [List.getD_eq_getElem?_getD,
                      List.getElem?_set_ne (fun hji => hij hji.symm),
                      ← List.getD_eq_getElem?_getD]
                    rw [hflag i hi]
                    simp [List.mem_cons, hij]
  | free p =>
      simp only [heapStep]
      rw [Heap.free]
      by_cases hp : p < n_heap_buckets
      · rw [if_pos hp]
        refine ⟨by simp [hlen], hnd.erase p, ?_, ?_⟩
        · intro i hi
          exact hbound i (List.mem_of_mem_erase hi)
        · intro i hi
          by_cases hip : i = p
          · subst hip
            rw [List.getD_eq_getElem?_getD,
              List.getElem?_set_self (by omega)]
            simp [hnd.mem_erase_iff]
          · rw [List.getD_eq_getElem?_getD,
              List.getElem?_set_ne (fun hpi => hip hpi.symm),
              ← List.getD_eq_getElem?_getD]
            rw [hflag i hi]
            simp [hnd.mem_erase_iff, hip]
      · rw [if_neg hp]
        have hpe : p ∉ out := fun hmem => hp (hbound p hmem)
        rw [List.erase_of_not_mem hpe]
        exact ⟨hlen, hnd, hbound, hflag⟩

theorem heapRun_inv (ops : List HeapOp) :
    HeapInv (heapRun ops).1 (heapRun ops).2 := by
  have hinit : HeapInv Heap.init [] := by
    refine ⟨by simp [Heap.init], List.nodup_nil, by simp, ?_⟩
    intro i hi
    rw [Heap.init]
    rw [List.getD_eq_getElem?_getD, List.getElem?_replicate]
    simp [hi]
  have hgen : ∀ (st : Heap × List Nat), HeapInv st.1 st.2 →
      HeapInv (ops.foldl heapStep st).1 (ops.foldl heapStep st).2 := by
    induction ops with
    | nil => exact fun st h => h
    | cons op rest ih =>
        intro st hst
        exact ih (heapStep st op) (heapStep_inv st.1 st.2 op hst)
  exact hgen (Heap.init, []) hinit

/-! ### The concrete ten-bucket scenario -/

theorem findFree_replicate_true_append (m : Nat) (rest : List Bool) :
    findFree (List.replicate m true ++ false :: rest) = some m := by
  induction m with
  | zero => simp [findFree]
  | succ k ih =>
      rw [List.replicate_succ, List.cons_append]
      simp only [findFree]
      rw [if_pos trivial, ih]
      rfl

theorem findFree_replicate_true (m : Nat) :
    findFree (List.replicate m true) = none := by
  induction m with
  | zero => rfl
  | succ k ih =>
      rw [List.replicate_succ]
      simp only [findFree]
      rw [if_pos trivial, ih]
      rfl

theorem set_replicate_append (m : Nat) (rest : List Bool) :
    (List.replicate m true ++ false :: rest).set m true
      = List.replicate (m + 1) true ++ rest := by
  rw [List.set_append, if_neg (by simp)]
  simp [List.replicate_succ', List.append_assoc]

theorem allocAll_replicate (sizes : List Nat) (m k : Nat)
    (hs : ∀ b ∈ sizes, b ≤ data_size) (hlen : sizes.length ≤ k) :
    allocAll ⟨List.replicate m true ++ List.replicate k false⟩ sizes =
      some (List.range' m sizes.length,
        ⟨List.replicate (m + sizes.length) true ++
          List.replicate (k - sizes.length) false⟩) := by
  induction sizes generalizing m k with
  | nil => simp [allocAll, List.range']
  | cons b rest ih =>
      obtain ⟨k', rfl⟩ : ∃ k', k = k' + 1 :=
        ⟨k - 1, by simp at hlen; omega⟩
      have hb : b ≤ data_size := hs b (by simp)
      rw [allocAll, Heap.allocate, if_neg (by omega)]
      rw [show List.replicate (k' + 1) false
          = false :: List.replicate k' false from List.replicate_succ _ _]
      rw [findFree_replicate_true_append]
      dsimp only
      rw [set_replicate_append]
      rw [ih (m + 1) k' (fun x hx => hs x (List.mem_cons_of_mem b hx))
        (by simp at hlen; omega)]
      simp only [Option.some.injEq, Prod.mk.injEq, Heap.mk.injEq,
        List.length_cons, List.range'_succ]
      refine ⟨trivial, ?_⟩
      rw [show m + 1 + rest.length = m + (rest.length + 1) from by omega,
        show k' - rest.length = k' + 1 - (rest.length + 1) from by omega]

/-- **C4**: along every sequence of `allocate`/`free` calls from the
initial all-free allocator, the outstanding handles are pairwise
distinct (no block is handed to two simultaneously-outstanding
allocations); concretely, with 10 buckets, any 10 sequential
allocations of sizes at most 4096 all succeed and return the ten
pairwise-distinct handles 0..9, and an 11th allocation of any size
fails with the out-of-memory error. -/
theorem Heap.no_double_allocation :
    (∀ ops : List HeapOp, (heapRun ops).2.Nodup) ∧
    (∀ sizes : List Nat, sizes.length = n_heap_buckets →
      (∀ b ∈ sizes, b ≤ data_size) →
      allocAll Heap.init sizes =
        some (List.range' 0 n_heap_buckets,
          ⟨List.replicate n_heap_buckets true⟩) ∧
      (List.range' 0 n_heap_buckets).Nodup ∧
      ∀ b, (Heap.mk (List.replicate n_heap_buckets true)).allocate b
        = .error "bad_alloc") := by
  constructor
  · intro ops
    exact (heapRun_inv ops).2.1
  · intro sizes hlen hs
    refine ⟨?_, List.nodup_range' 0 n_heap_buckets, ?_⟩
    · have h := allocAll_replicate sizes 0 n_heap_buckets hs (by omega)
      rw [hlen] at h
      simpa [Heap.init] using h
    · intro b
      rw [Heap.allocate]
      by_cases hb : b > data_size
      · rw [if_pos hb]
      · rw [if_neg hb, findFree_replicate_true]

/-- Witness for `Heap.no_double_allocation`: an alloc/free/alloc trace,
and ten one-byte allocations. -/
theorem Heap.no_double_allocation_witness :
    (heapRun [HeapOp.alloc 1, HeapOp.free 0, HeapOp.alloc 2]).2.Nodup ∧
    (allocAll Heap.init (List.replicate 10 1) =
        some (List.range' 0 n_heap_buckets,
          ⟨List.replicate n_heap_buckets true⟩) ∧
      (List.range' 0 n_heap_buckets).Nodup ∧
      ∀ b, (Heap.mk (List.replicate n_heap_buckets true)).allocate b
        = .error "bad_alloc") :=
  ⟨Heap.no_double_allocation.1 [HeapOp.alloc 1, HeapOp.free 0,
      HeapOp.alloc 2],
    Heap.no_double_allocation.2 (List.replicate 10 1) (by decide)
      (by decide)⟩

end Ccc
